import Mathlib

set_option maxHeartbeats 1000000

/-! Shallow embedding of the anomaly-detection workflow of the equipment
anomaly-detection notebook (src/notebooks/Model-Development.ipynb).

Matrices are lists of rows of rationals; floating-point values of the
source are modelled as ℚ.  Fallible library calls (numpy percentile on an
empty array) are modelled with Option. -/

/-- Models the numpy transpose .T for rectangular matrices: row j of the
result collects the j-th entry of every row; the number of columns is read
off the first row. -/
def transposeM (m : List (List ℚ)) : List (List ℚ) :=
  (List.range (m.headD []).length).map (fun j => m.map (fun r => r.getD j 0))

/-- Models numpy.percentile at an integer percentile q with the default
linear interpolation, as in thresh_train = np.percentile(train_mse, 95):
sort ascending, take the value at fractional rank q/100*(n-1) =
q*(n-1)/100, interpolating between the two neighbouring order statistics
(integer part i by natural division, fractional part g).  On an empty
array numpy raises an unhandled error, modelled as none. -/
def percentile (q : ℕ) (xs : List ℚ) : Option ℚ :=
  if xs.isEmpty then none
  else
    let s := xs.insertionSort (· ≤ ·)
    let i : ℕ := q * (xs.length - 1) / 100
    let g : ℚ := ((q * (xs.length - 1) : ℕ) : ℚ) / 100 - (i : ℚ)
    let lo := s.getD i 0
    let hi := s.getD (i + 1) lo
    some (lo + g * (hi - lo))

/-- Models the autoencoder threshold binarization of one score, from the
list comprehension yhat = [0 if imse < thresh_train else 1 for imse in
val_mse]. -/
def classify (thresh x : ℚ) : ℕ := if x < thresh then 0 else 1

/-- Models the whole comprehension producing yhat from val_mse. -/
def binarize (thresh : ℚ) (scores : List ℚ) : List ℕ :=
  scores.map (classify thresh)

/-- Models the autoencoder evaluation tail of the notebook: compute
thresh_train as the 95th percentile of the training reconstruction errors,
then binarize the validation reconstruction errors against it. -/
def autoencoderEval (train_mse val_mse : List ℚ) : Option (ℚ × List ℕ) :=
  (percentile 95 train_mse).map (fun t => (t, binarize t val_mse))

/-- Elementwise squared difference of two matrices, the (y_true - y_pred)**2
inside sklearn.metrics.mean_squared_error. -/
def sqDiffM (a b : List (List ℚ)) : List (List ℚ) :=
  (a.zip b).map (fun r => (r.1.zip r.2).map (fun p => (p.1 - p.2) ^ 2))

/-- Column means, the np.average(..., axis=0) inside mean_squared_error. -/
def colMeans (m : List (List ℚ)) : List ℚ :=
  (transposeM m).map (fun c => c.sum / (c.length : ℚ))

/-- Models sklearn.metrics.mean_squared_error(y_true, y_pred,
multioutput=raw_values): the per-output (per-column) mean of squared
differences.  The notebook passes transposed matrices so that the outputs
are the original samples. -/
def mean_squared_error_raw (yTrue yPred : List (List ℚ)) : List ℚ :=
  colMeans (sqDiffM yTrue yPred)

/-- Models sklearn.metrics.accuracy_score(y, yhat): fraction of positions
where the two label lists agree. -/
def accuracy_score (y yhat : List ℕ) : ℚ :=
  ((y.zip yhat).countP (fun p => p.1 = p.2) : ℚ) / (y.length : ℚ)

/-- Models sklearn.metrics.roc_curve(y, score): thresholds are the distinct
scores in decreasing order; at each threshold the cumulative false-positive
and true-positive counts are normalized by the class totals, with a (0,0)
point prepended.  Division by a zero class total (numpy nan) is ℚ division
by zero. -/
def roc_curve (y : List ℕ) (score : List ℚ) : List ℚ × List ℚ :=
  let pairs := score.zip y
  let thresholds := (score.dedup).insertionSort (· ≥ ·)
  let P : ℚ := (y.countP (fun b => b = 1) : ℕ)
  let Nn : ℚ := (y.countP (fun b => b ≠ 1) : ℕ)
  let tps := thresholds.map
    (fun t => ((pairs.countP (fun p => t ≤ p.1 ∧ p.2 = 1) : ℕ) : ℚ) / P)
  let fps := thresholds.map
    (fun t => ((pairs.countP (fun p => t ≤ p.1 ∧ p.2 ≠ 1) : ℕ) : ℚ) / Nn)
  (0 :: fps, 0 :: tps)

/-- Models sklearn.metrics.auc(FP, TP): trapezoidal area under the curve. -/
def auc (x y : List ℚ) : ℚ :=
  (((x.zip y).zip ((x.drop 1).zip (y.drop 1))).map
    (fun q => (q.2.1 - q.1.1) * (q.1.2 + q.2.2) / 2)).sum

/-- Values stored in the metric dictionary returned by performance. -/
inductive MetricValue where
  | num : ℚ → MetricValue
  | curve : List ℚ → List ℚ → MetricValue
  | labels : List ℕ → MetricValue
deriving DecidableEq

/-- Models the notebook function performance(yhat, y, score=None): a dict
with key accuracy always, and keys FP_TP, AUC and yhat exactly when a score
is supplied, in insertion order. -/
def performance (yhat y : List ℕ) (score : Option (List ℚ)) :
    List (String × MetricValue) :=
  let base := [("accuracy", MetricValue.num (accuracy_score y yhat))]
  match score with
  | none => base
  | some sc =>
    let rc := roc_curve y sc
    base ++ [("FP_TP", MetricValue.curve rc.1 rc.2),
             ("AUC", MetricValue.num (auc rc.1 rc.2)),
             ("yhat", MetricValue.labels yhat)]

/-- Models yhat = np.where(pred == -1, 1, 0) in the unsupervised
prediction loop; the raw predictions of the sklearn outlier models are
integers in {-1, +1}. -/
def unsupYhat (preds : List ℤ) : List ℕ :=
  preds.map (fun p => if p = -1 then 1 else 0)

/-- Models anomaly_score = - model.decision_function(X) in the unsupervised
prediction loop. -/
def unsupAnomalyScore (decisions : List ℚ) : List ℚ :=
  decisions.map (fun d => -d)

/-- Fitted state of sklearn.preprocessing.RobustScaler: per-feature center
(median) and scale (interquartile range). -/
structure ScalerState where
  center : List ℚ
  scale : List ℚ
deriving DecidableEq

/-- Models sklearn's handle_zeros_in_scale: a zero scale is replaced by 1
so that the transform never divides by zero. -/
def handle_zeros_in_scale (s : ℚ) : ℚ := if s = 0 then 1 else s

/-- Models RobustScaler.fit(X): per feature column, center is the median
(50th percentile) and scale the interquartile range (75th minus 25th
percentile), zeros handled. -/
def robustFit (x : List (List ℚ)) : ScalerState :=
  let cols := transposeM x
  { center := cols.map (fun c => (percentile 50 c).getD 0)
    scale := cols.map (fun c =>
      handle_zeros_in_scale ((percentile 75 c).getD 0 - (percentile 25 c).getD 0)) }

/-- Models RobustScaler.transform(X): per feature, subtract the fitted
center and divide by the fitted scale. -/
def robustTransform (st : ScalerState) (x : List (List ℚ)) : List (List ℚ) :=
  x.map (fun row =>
    (row.zip (st.center.zip st.scale)).map (fun p => (p.1 - p.2.1) / p.2.2))

/-- Models the preprocessing cell of the notebook: fit the scaler on the
training features once, then apply the fitted scaler to both the training
and the validation features. -/
def scalerWorkflow (xtr xval : List (List ℚ)) :
    ScalerState × List (List ℚ) × List (List ℚ) :=
  let scaler := robustFit xtr
  (scaler, robustTransform scaler xtr, robustTransform scaler xval)

/-- Claim C1: the thresholding step classifies a score as anomaly (1) iff
it is greater than or equal to the threshold, as normal (0) iff it is
strictly below, and a score exactly equal to the threshold is classified
anomaly. -/
theorem C1_threshold_boundary (t x : ℚ) :
    (classify t x = 1 ↔ t ≤ x) ∧ (classify t x = 0 ↔ x < t) ∧
    classify t t = 1 := by
  unfold classify
  refine ⟨?_, ?_, by simp⟩
  · rcases lt_or_le x t with h | h
    · simp [h, not_le.mpr h]
    · simp [not_lt.mpr h, h]
  · rcases lt_or_le x t with h | h
    · simp [h]
    · simp [not_lt.mpr h, not_lt.mpr h]

/-- Claim C9: computing the quantile threshold from an empty score list
fails (none, modelling numpy's fatal unhandled error), while any non-empty
score list yields a value. -/
theorem C9_percentile_empty_vs_nonempty (xs : List ℚ) :
    (xs = [] → percentile 95 xs = none) ∧
    (xs ≠ [] → ∃ v, percentile 95 xs = some v) := by
  constructor
  · rintro rfl
    rfl
  · intro h
    unfold percentile
    rw [if_neg (by simpa [List.isEmpty_iff] using h)]
    exact ⟨_, rfl⟩

/-- Witness for C9 at concrete inputs. -/
theorem C9_percentile_empty_vs_nonempty_witness :
    percentile 95 ([] : List ℚ) = none ∧ ∃ v, percentile 95 [3] = some v :=
  ⟨(C9_percentile_empty_vs_nonempty []).1 rfl,
   (C9_percentile_empty_vs_nonempty [3]).2 (by simp)⟩

/-- Claim C2: the threshold is the 95th percentile of the training scores,
computed from the training scores only, and the very same fixed value is
the one every future (validation) score is compared against; it does not
depend on the validation scores. -/
theorem C2_threshold_from_training_only (tm vm vm' : List ℚ) (t : ℚ)
    (labels : List ℕ) (h : autoencoderEval tm vm = some (t, labels)) :
    percentile 95 tm = some t ∧
    labels = vm.map (classify t) ∧
    (autoencoderEval tm vm').map Prod.fst = some t := by
  unfold autoencoderEval at h ⊢
  cases hp : percentile 95 tm with
  | none => rw [hp] at h; simp at h
  | some u =>
    rw [hp] at h
    simp only [Option.map_some', Option.some.injEq, Prod.mk.injEq] at h
    obtain ⟨h1, h2⟩ := h
    subst h1
    exact ⟨rfl, by rw [← h2]; rfl, by simp⟩

/-- Witness for C2 at concrete inputs. -/
theorem C2_threshold_from_training_only_witness :
    percentile 95 ([1, 2, 3] : List ℚ) = some (29 / 10) ∧
    ([0, 1] : List ℕ) = ([0, 3] : List ℚ).map (classify (29 / 10)) ∧
    (autoencoderEval [1, 2, 3] [5]).map Prod.fst = some (29 / 10) :=
  C2_threshold_from_training_only [1, 2, 3] [0, 3] [5] (29 / 10) [0, 1]
    (by norm_num [autoencoderEval, percentile, List.insertionSort,
      List.orderedInsert, binarize, classify])

/-- Claim C10: every predicted-label vector is total and binary: the
binarization of scores and the np.where binarization of raw predictions
both output one label per input sample, each label 0 or 1. -/
theorem C10_labels_total_and_binary (t : ℚ) (scores : List ℚ)
    (preds : List ℤ) :
    (binarize t scores).length = scores.length ∧
    (∀ l ∈ binarize t scores, l = 0 ∨ l = 1) ∧
    (unsupYhat preds).length = preds.length ∧
    (∀ l ∈ unsupYhat preds, l = 0 ∨ l = 1) := by
  refine ⟨by simp [binarize], ?_, by simp [unsupYhat], ?_⟩
  · intro l hl
    simp only [binarize, List.mem_map] at hl
    obtain ⟨x, _, rfl⟩ := hl
    unfold classify
    split
    · exact Or.inl rfl
    · exact Or.inr rfl
  · intro l hl
    simp only [unsupYhat, List.mem_map] at hl
    obtain ⟨x, _, rfl⟩ := hl
    split
    · exact Or.inr rfl
    · exact Or.inl rfl

/-- Witness for C10 at concrete inputs. -/
theorem C10_labels_total_and_binary_witness :
    (binarize 1 [0, 2]).length = 2 ∧ ((1 : ℕ) = 0 ∨ (1 : ℕ) = 1) :=
  ⟨(C10_labels_total_and_binary 1 [0, 2] []).1,
   (C10_labels_total_and_binary 1 [0, 2] []).2.1 1
     (by norm_num [binarize, classify])⟩

/-- Claim C5: in the unsupervised prediction loop, the anomaly score of
each row is the negation of the model's raw decision value, and the binary
prediction maps a raw prediction of -1 to label 1 and any other raw
prediction to label 0. -/
theorem C5_unsupervised_score_and_label (preds : List ℤ)
    (decisions : List ℚ) (i : ℕ) :
    (i < decisions.length →
      (unsupAnomalyScore decisions).getD i 0 = - decisions.getD i 0) ∧
    (i < preds.length →
      ((preds.getD i 0 = -1 → (unsupYhat preds).getD i 0 = 1) ∧
       (preds.getD i 0 ≠ -1 → (unsupYhat preds).getD i 0 = 0))) := by
  constructor
  · intro h
    rw [List.getD_eq_getElem _ _ (by simpa [unsupAnomalyScore] using h),
        List.getD_eq_getElem _ _ h]
    simp [unsupAnomalyScore]
  · intro h
    rw [List.getD_eq_getElem _ _ h,
        List.getD_eq_getElem _ _ (by simpa [unsupYhat] using h)]
    constructor <;> intro hx <;> simp [unsupYhat, hx]

/-- Witness for C5 at concrete inputs. -/
theorem C5_unsupervised_score_and_label_witness :
    (unsupAnomalyScore [2]).getD 0 0 = - ([2] : List ℚ).getD 0 0 ∧
    (unsupYhat [-1]).getD 0 0 = 1 :=
  ⟨(C5_unsupervised_score_and_label [] [2] 0).1 (by simp),
   ((C5_unsupervised_score_and_label [-1] [] 0).2 (by simp)).1 (by simp)⟩

/-- Claim C6: the scaler is fit exactly once, on the training features
only: the fitted state of the preprocessing workflow is the robust fit of
the training features, it does not depend on the validation data, and the
fitted transform is deterministic (transforming the same features twice,
in either run of the workflow, yields identical output). -/
theorem C6_scaler_fit_once_deterministic (xtr xval xval' : List (List ℚ))
    (v : List (List ℚ)) :
    (scalerWorkflow xtr xval).1 = robustFit xtr ∧
    (scalerWorkflow xtr xval).1 = (scalerWorkflow xtr xval').1 ∧
    robustTransform (scalerWorkflow xtr xval).1 v =
      robustTransform (scalerWorkflow xtr xval').1 v :=
  ⟨rfl, rfl, rfl⟩

/-- Claim C4 counterexample: the metric mapping of a call with a score
contains the key yhat, which is none of the listed metrics, so the mapping
does contain an entry other than accuracy, the FP/TP curve and the AUC. -/
theorem C4_extra_entry_counterexample :
    ¬ (∀ k ∈ (performance [1] [1] (some [1])).map Prod.fst,
        k = "accuracy" ∨ k = "FP_TP" ∨ k = "AUC") := by
  intro h
  have hy := h "yhat" (by simp [performance])
  simp at hy

/-- Claim C4 (amended): the metric mapping always contains the accuracy of
the predicted labels against the true labels; it contains the FP/TP curve,
its area, and a copy of the predicted labels exactly when a score is
supplied; and it contains no other entries. -/
theorem C4_performance_keys (yhat y : List ℕ) (score : Option (List ℚ)) :
    ("accuracy", MetricValue.num (accuracy_score y yhat)) ∈
      performance yhat y score ∧
    (performance yhat y score).map Prod.fst =
      (match score with
       | none => ["accuracy"]
       | some _ => ["accuracy", "FP_TP", "AUC", "yhat"]) := by
  cases score <;> simp [performance]

/-- Every position agrees when a label list is compared with itself. -/
lemma countP_zip_self_eq (y : List ℕ) :
    (y.zip y).countP (fun p => p.1 = p.2) = y.length := by
  induction y with
  | nil => rfl
  | cons a t ih => simp [List.countP_cons, ih]

/-- No position agrees when a binary label list is compared with its
pointwise inversion. -/
lemma countP_zip_invert_eq_zero (y : List ℕ)
    (hbin : ∀ b ∈ y, b = 0 ∨ b = 1) :
    (y.zip (y.map (fun b => 1 - b))).countP (fun p => p.1 = p.2) = 0 := by
  induction y with
  | nil => rfl
  | cons a t ih =>
    have ha := hbin a (by simp)
    have ht : ∀ b ∈ t, b = 0 ∨ b = 1 := fun b hb => hbin b (by simp [hb])
    rcases ha with rfl | rfl <;> simp [List.countP_cons, ih ht]

/-- Claim C8: on a non-empty label list, accuracy is exactly 1 when the
predicted labels equal the true labels, and exactly 0 when every binary
predicted label is the inversion of the true label (with balanced
classes). -/
theorem C8_accuracy_extremes (y yhat : List ℕ) (hne : y ≠ []) :
    (yhat = y → accuracy_score y yhat = 1) ∧
    ((∀ b ∈ y, b = 0 ∨ b = 1) → y.count 0 = y.count 1 →
      yhat = y.map (fun b => 1 - b) → accuracy_score y yhat = 0) := by
  have hlen : (y.length : ℚ) ≠ 0 :=
    Nat.cast_ne_zero.mpr (fun h => hne (List.length_eq_zero.mp h))
  constructor
  · rintro rfl
    unfold accuracy_score
    rw [countP_zip_self_eq]
    exact div_self hlen
  · intro hbin _ hinv
    subst hinv
    unfold accuracy_score
    rw [countP_zip_invert_eq_zero y hbin]
    simp

/-- Witness for C8 at concrete inputs. -/
theorem C8_accuracy_extremes_witness :
    accuracy_score [0, 1] [0, 1] = 1 ∧ accuracy_score [0, 1] [1, 0] = 0 :=
  ⟨(C8_accuracy_extremes [0, 1] [0, 1] (by simp)).1 rfl,
   (C8_accuracy_extremes [0, 1] [1, 0] (by simp)).2 (by simp)
     (by simp [List.count_cons]) (by simp)⟩

/-- Claim C7: for every sample, the reconstruction-based anomaly score
(per-output mean squared error of the transposed matrices, as computed by
the notebook's mean_squared_error call) equals the mean over the 24
feature columns of the squared differences between the sample's scaled
feature values and the model's reconstruction of them. -/
theorem C7_per_sample_mse (P X : List (List ℚ)) (hlen : P.length = X.length)
    (hP : ∀ r ∈ P, r.length = 24) (hX : ∀ r ∈ X, r.length = 24)
    (i : ℕ) (hi : i < X.length) :
    (mean_squared_error_raw (transposeM P) (transposeM X)).getD i 0
      = ((List.range 24).map
          (fun j => ((X.getD i []).getD j 0 - (P.getD i []).getD j 0) ^ 2)).sum
        / 24 := by
  have hiP : i < P.length := hlen ▸ hi
  obtain ⟨p, P', hPe⟩ := List.exists_cons_of_ne_nil
    (List.ne_nil_of_length_pos (by omega) : P ≠ [])
  obtain ⟨x, X', hXe⟩ := List.exists_cons_of_ne_nil
    (List.ne_nil_of_length_pos (by omega) : X ≠ [])
  have hp24 : p.length = 24 := hP p (by rw [hPe]; exact List.mem_cons_self p P')
  have hx24 : x.length = 24 := hX x (by rw [hXe]; exact List.mem_cons_self x X')
  have htP : transposeM P
      = (List.range 24).map (fun j => P.map (fun r => r.getD j 0)) := by
    unfold transposeM
    rw [hPe]
    simp [hp24]
  have htX : transposeM X
      = (List.range 24).map (fun j => X.map (fun r => r.getD j 0)) := by
    unfold transposeM
    rw [hXe]
    simp [hx24]
  have hzlen : (P.zip X).length = X.length := by
    rw [List.length_zip, hlen, min_self]
  have hM : sqDiffM (transposeM P) (transposeM X)
      = (List.range 24).map
          (fun j => (P.zip X).map
            (fun r => (r.1.getD j 0 - r.2.getD j 0) ^ 2)) := by
    unfold sqDiffM
    rw [htP, htX, List.zip_map', List.map_map]
    refine List.map_congr_left (fun j _ => ?_)
    simp only [Function.comp]
    rw [List.zip_map, List.map_map]
    rfl
  set M := (List.range 24).map
      (fun j => (P.zip X).map
        (fun r => (r.1.getD j 0 - r.2.getD j 0) ^ 2)) with hMdef
  have h24 : List.range 24 = 0 :: (List.range 23).map Nat.succ :=
    List.range_succ_eq_map 23
  have hMhead : M.headD []
      = (P.zip X).map (fun r => (r.1.getD 0 0 - r.2.getD 0 0) ^ 2) := by
    rw [hMdef, h24]
    simp only [List.map_cons, List.headD_cons]
  have hMheadlen : (M.headD []).length = X.length := by
    rw [hMhead, List.length_map, hzlen]
  have htM : transposeM M
      = (List.range X.length).map (fun k => M.map (fun r => r.getD k 0)) := by
    unfold transposeM
    rw [hMheadlen]
  have hcol : M.map (fun r => r.getD i 0)
      = (List.range 24).map
          (fun j => ((X.getD i []).getD j 0 - (P.getD i []).getD j 0) ^ 2) := by
    rw [hMdef, List.map_map]
    refine List.map_congr_left (fun j _ => ?_)
    simp only [Function.comp]
    rw [List.getD_eq_getElem _ _ (by rw [List.length_map]; omega)]
    rw [List.getElem_map, List.getElem_zip]
    rw [List.getD_eq_getElem X _ hi, List.getD_eq_getElem P _ hiP]
    ring
  unfold mean_squared_error_raw colMeans
  rw [hM, htM, List.map_map]
  rw [List.getD_eq_getElem _ _ (by simpa using hi)]
  rw [List.getElem_map, List.getElem_range]
  simp only [Function.comp]
  rw [hcol]
  simp

/-- Witness for C7 at concrete inputs. -/
theorem C7_per_sample_mse_witness :
    (mean_squared_error_raw (transposeM [List.replicate 24 (0 : ℚ)])
        (transposeM [List.replicate 24 (1 : ℚ)])).getD 0 0
      = ((List.range 24).map
          (fun j => (([List.replicate 24 (1 : ℚ)].getD 0 []).getD j 0
            - ([List.replicate 24 (0 : ℚ)].getD 0 []).getD j 0) ^ 2)).sum
        / 24 :=
  C7_per_sample_mse [List.replicate 24 0] [List.replicate 24 1] rfl
    (by simp) (by simp) 0 (by simp)

/-- Claim C3: for every list of 100 scores in which exactly 5 scores (A)
are strictly greater than every one of the other 95 (N), binarizing the
100 scores against the 95th percentile of the very same 100-sample
distribution yields exactly 5 positives. -/
theorem C3_exactly_five_positives (xs A N : List ℚ)
    (hA : A.length = 5) (hN : N.length = 95)
    (hperm : xs.Perm (N ++ A))
    (hsep : ∀ a ∈ A, ∀ n ∈ N, n < a) :
    ∃ t, percentile 95 xs = some t ∧ (binarize t xs).count 1 = 5 := by
  have hlen : xs.length = 100 := by
    rw [hperm.length_eq, List.length_append, hN, hA]
  have hne : xs ≠ [] := by
    intro h
    rw [h] at hlen
    simp at hlen
  set sN := N.insertionSort (· ≤ ·) with hsNdef
  set sA := A.insertionSort (· ≤ ·) with hsAdef
  have hsNlen : sN.length = 95 := by
    rw [hsNdef, List.length_insertionSort, hN]
  have hsAlen : sA.length = 5 := by
    rw [hsAdef, List.length_insertionSort, hA]
  have hsorted : (sN ++ sA).Sorted (· ≤ ·) := by
    rw [List.Sorted, List.pairwise_append]
    refine ⟨List.sorted_insertionSort _ N, List.sorted_insertionSort _ A, ?_⟩
    intro a ha b hb
    exact le_of_lt (hsep b ((List.perm_insertionSort _ A).mem_iff.mp hb) a
      ((List.perm_insertionSort _ N).mem_iff.mp ha))
  have hperm2 : (sN ++ sA).Perm xs :=
    ((List.perm_insertionSort _ N).append (List.perm_insertionSort _ A)).trans
      hperm.symm
  have hseq : xs.insertionSort (· ≤ ·) = sN ++ sA :=
    List.eq_of_perm_of_sorted ((List.perm_insertionSort _ xs).trans hperm2.symm)
      (List.sorted_insertionSort _ xs) hsorted
  have h94lt : (94 : ℕ) < sN.length := by omega
  have h0lt : (0 : ℕ) < sA.length := by omega
  have h94 : (sN ++ sA).getD 94 0 = sN.getD 94 0 :=
    List.getD_append _ _ _ _ h94lt
  have h95 : ∀ d : ℚ, (sN ++ sA).getD 95 d = sA.getD 0 d := by
    intro d
    rw [List.getD_append_right _ _ _ _ (by omega), hsNlen]
  have hdflt : sA.getD 0 (sN.getD 94 0) = sA.getD 0 0 := by
    rw [List.getD_eq_getElem _ _ h0lt, List.getD_eq_getElem _ _ h0lt]
  have hp95 : percentile 95 xs
      = some (sN.getD 94 0
          + 1 / 20 * (sA.getD 0 0 - sN.getD 94 0)) := by
    simp only [percentile]
    rw [if_neg (by simpa [List.isEmpty_iff] using hne)]
    rw [hseq, hlen]
    have e1 : (95 * (100 - 1) / 100 : ℕ) = 94 := by norm_num
    rw [e1]
    have e2 : ((95 * (100 - 1) : ℕ) : ℚ) / 100 - ((94 : ℕ) : ℚ) = 1 / 20 := by
      norm_num
    rw [e2, show (94 : ℕ) + 1 = 95 from rfl, h94, h95, hdflt]
  have hsortN : sN.Sorted (· ≤ ·) := List.sorted_insertionSort _ N
  have hsortA : sA.Sorted (· ≤ ·) := List.sorted_insertionSort _ A
  have hloN : sN.getD 94 0 ∈ N := by
    rw [List.getD_eq_getElem _ _ h94lt]
    exact (List.perm_insertionSort _ N).mem_iff.mp (List.getElem_mem _)
  have hhiA : sA.getD 0 0 ∈ A := by
    rw [List.getD_eq_getElem _ _ h0lt]
    exact (List.perm_insertionSort _ A).mem_iff.mp (List.getElem_mem _)
  have hmaxN : ∀ n ∈ N, n ≤ sN.getD 94 0 := by
    intro n hn
    obtain ⟨k, hk⟩ := List.mem_iff_get.mp
      ((List.perm_insertionSort (· ≤ · : ℚ → ℚ → Prop) N).mem_iff.mpr hn)
    rw [List.getD_eq_getElem _ _ h94lt]
    have hkb : (k : ℕ) < 95 := lt_of_lt_of_eq k.isLt hsNlen
    rcases Nat.lt_or_ge k.val 94 with hk94 | hk94
    · have := (List.pairwise_iff_get.mp hsortN) k ⟨94, h94lt⟩ hk94
      rw [hk] at this
      simpa using this
    · have hkeq : k.val = 94 := by omega
      rw [← hk]
      simp [List.get_eq_getElem, hkeq]
  have hminA : ∀ a ∈ A, sA.getD 0 0 ≤ a := by
    intro a ha
    obtain ⟨k, hk⟩ := List.mem_iff_get.mp
      ((List.perm_insertionSort (· ≤ · : ℚ → ℚ → Prop) A).mem_iff.mpr ha)
    rw [List.getD_eq_getElem _ _ h0lt]
    rcases Nat.eq_zero_or_pos k.val with hk0 | hk0
    · rw [← hk]
      simp [List.get_eq_getElem, hk0]
    · have := (List.pairwise_iff_get.mp hsortA) ⟨0, h0lt⟩ k hk0
      rw [hk] at this
      simpa using this
  have hlohi : sN.getD 94 0 < sA.getD 0 0 := hsep _ hhiA _ hloN
  refine ⟨sN.getD 94 0 + 1 / 20 * (sA.getD 0 0 - sN.getD 94 0), hp95, ?_⟩
  set t := sN.getD 94 0 + 1 / 20 * (sA.getD 0 0 - sN.getD 94 0) with htdef
  have htlo : sN.getD 94 0 < t := by
    rw [htdef]
    linarith
  have hthi : t < sA.getD 0 0 := by
    rw [htdef]
    linarith
  rw [binarize, List.count_eq_countP, List.countP_map, hperm.countP_eq,
    List.countP_append]
  have hcN : N.countP ((fun x => x == 1) ∘ classify t) = 0 := by
    rw [List.countP_eq_zero]
    intro n hn
    have : classify t n = 0 := by
      unfold classify
      rw [if_pos (lt_of_le_of_lt (hmaxN n hn) htlo)]
    simp [Function.comp, this]
  have hcA : A.countP ((fun x => x == 1) ∘ classify t) = A.length := by
    rw [List.countP_eq_length]
    intro a ha
    have : classify t a = 1 := by
      unfold classify
      rw [if_neg (not_lt.mpr (le_of_lt (lt_of_lt_of_le hthi (hminA a ha))))]
    simp [Function.comp, this]
  rw [hcN, hcA, hA]

/-- Witness for C3 at a concrete 100-sample list. -/
theorem C3_exactly_five_positives_witness :
    ∃ t,
      percentile 95 (List.replicate 95 (0 : ℚ) ++ List.replicate 5 1)
        = some t ∧
      (binarize t
        (List.replicate 95 (0 : ℚ) ++ List.replicate 5 1)).count 1 = 5 :=
  C3_exactly_five_positives _ (List.replicate 5 1) (List.replicate 95 0)
    (by simp) (by simp) (List.Perm.refl _)
    (by
      intro a ha n hn
      rw [List.eq_of_mem_replicate ha, List.eq_of_mem_replicate hn]
      norm_num)
